import Mathlib

/-!
Shallow embedding of mapnik feature.hpp: the shared-schema attribute
record (class context and class feature_impl), its strict and lenient
writes, safe reads, geometry envelope and debug text form.
-/

namespace Mapnik

/-- AttributeValue (mapnik::value): external tagged union; only the
null/default variant, equality and text formatting matter here. -/
inductive Value where
  | vnull : Value
  | vbool : Bool → Value
  | vint : Int → Value
  | vstr : String → Value
deriving DecidableEq

/-- Modelled from the spec: text formatting of an AttributeValue
(value.hpp is not under src/); integers print in decimal, strings bare,
booleans as true/false, the null sentinel as the literal null. -/
def Value.render : Value → String
  | .vnull => "null"
  | .vbool b => if b then "true" else "false"
  | .vint n => toString n
  | .vstr s => s

/-- static const value default_value (feature.hpp line 93): the
default-constructed mapnik::value holds the null variant. -/
def default_value : Value := Value.vnull

/-- Modelled from the spec: BoundingBox is a concrete rectangle
(box2d.hpp is not under src/); the empty/uninitialized sentinel is
modelled as the none of an Option Box. Coordinates are taken over Int
since only min/max arithmetic is involved. -/
structure Box where
  minx : Int
  miny : Int
  maxx : Int
  maxy : Int
deriving DecidableEq

/-- Modelled from the spec: box2d expand_to_include, the min/max union
of two rectangles. -/
def Box.expand_to_include (a b : Box) : Box :=
  { minx := min a.minx b.minx, miny := min a.miny b.miny,
    maxx := max a.maxx b.maxx, maxy := max a.maxy b.maxy }

/-- Lexicographic comparison of character lists, the order std::map
uses on std::string keys. -/
def charListLt : List Char → List Char → Bool
  | [], [] => false
  | [], _ :: _ => true
  | _ :: _, [] => false
  | a :: as, b :: bs => if a < b then true else if b < a then false else charListLt as bs

/-- Lexicographic string comparison (std::string operator less). -/
def strLt (a b : String) : Bool := charListLt a.data b.data

/-- std::map insert over an association list with keys kept in sorted
order: inserting an existing key is a no-op (no overwrite). -/
def mapInsert (k : String) (v : Nat) : List (String × Nat) → List (String × Nat)
  | [] => [(k, v)]
  | (k₂, v₂) :: rest =>
    if strLt k k₂ then (k, v) :: (k₂, v₂) :: rest
    else if k = k₂ then (k₂, v₂) :: rest
    else (k₂, v₂) :: mapInsert k v rest

/-- std::map find, returning the stored index for a key. -/
def mapFind (k : String) : List (String × Nat) → Option Nat
  | [] => none
  | (k₂, v₂) :: rest => if k = k₂ then some v₂ else mapFind k rest

/-- context over std::map of string to size_t (feature.hpp lines
53-88): the shared Schema, a name-to-slot-index dictionary. -/
structure Context where
  mapping : List (String × Nat)
deriving DecidableEq

/-- context::size (line 82): number of stored entries. -/
def Context.size (c : Context) : Nat := c.mapping.length

/-- context::push (lines 70-75, registerSlot): the speculative index is
the current size; insert does not overwrite an existing key; the
speculative index is returned either way. -/
def Context.push (c : Context) (name : String) : Nat × Context :=
  (c.mapping.length, ⟨mapInsert name c.mapping.length c.mapping⟩)

/-- context::add (lines 77-80, registerExisting): import an externally
assigned index; no overwrite. -/
def Context.add (c : Context) (name : String) (index : Nat) : Context :=
  ⟨mapInsert name index c.mapping⟩

/-- Well-formedness of the mapping as a std::map: keys strictly sorted
(hence unique). -/
def Context.WF (c : Context) : Prop :=
  c.mapping.Pairwise (fun a b => strLt a.1 b.1 = true)

/-- Density: every stored slot index lies below the Schema size. Growth
through push alone maintains this. -/
def Context.Dense (c : Context) : Prop :=
  ∀ p ∈ c.mapping, p.2 < c.mapping.length

instance (c : Context) : Decidable c.WF :=
  inferInstanceAs (Decidable (c.mapping.Pairwise _))

instance (c : Context) : Decidable c.Dense :=
  inferInstanceAs (Decidable (∀ p ∈ c.mapping, p.2 < c.mapping.length))

/-- feature_impl (lines 95-300): id, dense value array, exclusively
owned geometry collection (each geometry modelled by its envelope box),
optional raster handle. -/
structure Feature where
  id : Int
  data : List Value
  geoms : List Box
  raster : Option Nat
deriving DecidableEq

/-- feature_impl constructor (lines 104-110): the value array is
default-initialized with length equal to the schema size at this
instant; no geometries, no raster. -/
def Feature.make (ctx : Context) (id : Int) : Feature :=
  { id := id, data := List.replicate ctx.size default_value,
    geoms := [], raster := none }

/-- feature_impl::size (lines 179-182): current value-array length. -/
def Feature.size (f : Feature) : Nat := f.data.length

/-- feature_impl::put (lines 128-140), strict write: returns the
post-state of the shared schema and the record, paired with some error
message exactly when the C++ code throws std::out_of_range (the throw
happens before any mutation). -/
def Feature.put (f : Feature) (ctx : Context) (key : String) (val : Value) :
    (Context × Feature) × Option String :=
  match mapFind key ctx.mapping with
  | some idx =>
    if idx < f.data.length then
      ((ctx, { f with data := f.data.set idx val }), none)
    else ((ctx, f), some ("Key does not exist: " ++ key))
  | none => ((ctx, f), some ("Key does not exist: " ++ key))

/-- feature_impl::put_new (lines 142-156), lenient write: in-bounds
keys are overwritten; otherwise the key is pushed into the schema and
the value appended only when the speculative index equals this record
array length. -/
def Feature.put_new (f : Feature) (ctx : Context) (key : String) (val : Value) :
    Context × Feature :=
  match mapFind key ctx.mapping with
  | some idx =>
    if idx < f.data.length then
      (ctx, { f with data := f.data.set idx val })
    else
      let p := ctx.push key
      if p.1 = f.data.length then (p.2, { f with data := f.data ++ [val] })
      else (p.2, f)
  | none =>
    let p := ctx.push key
    if p.1 = f.data.length then (p.2, { f with data := f.data ++ [val] })
    else (p.2, f)

/-- feature_impl::has_key (lines 158-161): schema membership only. -/
def Feature.has_key (_f : Feature) (ctx : Context) (key : String) : Bool :=
  (mapFind key ctx.mapping).isSome

/-- feature_impl::get by index (lines 172-177): safe read by slot,
returning default_value out of bounds. -/
def Feature.getIdx (f : Feature) (index : Nat) : Value :=
  if h : index < f.data.length then f.data.get ⟨index, h⟩ else default_value

/-- feature_impl::get by key (lines 163-170): safe read by name,
returning default_value for an absent key. -/
def Feature.get (f : Feature) (ctx : Context) (key : String) : Value :=
  match mapFind key ctx.mapping with
  | some idx => f.getIdx idx
  | none => default_value

/-- feature_impl::set_data (lines 189-192): wholesale replacement of
the value array. -/
def Feature.set_data (f : Feature) (d : List Value) : Feature :=
  { f with data := d }

/-- feature_impl::add_geometry (lines 209-212): append, transferring
ownership; insertion order is preserved. -/
def Feature.add_geometry (f : Feature) (g : Box) : Feature :=
  { f with geoms := f.geoms ++ [g] }

/-- feature_impl::num_geometries (lines 214-217). -/
def Feature.num_geometries (f : Feature) : Nat := f.geoms.length

/-- feature_impl::envelope (lines 229-247): the result starts as the
default (empty) box, is initialized from the first geometry envelope at
i = 0, then expanded to include each later geometry in order. -/
def Feature.envelope (f : Feature) : Option Box :=
  match f.geoms with
  | [] => none
  | g :: rest => some (rest.foldl Box.expand_to_include g)

/-- feature_impl::set_raster (lines 254-257). -/
def Feature.set_raster (f : Feature) (r : Nat) : Feature :=
  { f with raster := some r }

/-- One attribute line of to_string, or none when the slot index is out
of this record array bounds (then the entry is skipped). -/
def attrLine (data : List Value) (p : String × Nat) : Option String :=
  if h : p.2 < data.length then
    some (if data.get ⟨p.2, h⟩ = Value.vnull
          then "  " ++ p.1 ++ ":null" ++ "\n"
          else "  " ++ p.1 ++ ":" ++ (data.get ⟨p.2, h⟩).render ++ "\n")
  else none

/-- Body loop of feature_impl::to_string (lines 273-289): walk the
mapping in its order, emitting a line per in-bounds slot and skipping
out-of-bounds slots. -/
def strBody (data : List Value) : List (String × Nat) → String
  | [] => ""
  | (name, index) :: rest =>
    if h : index < data.length then
      (if data.get ⟨index, h⟩ = Value.vnull
       then "  " ++ name ++ ":null" ++ "\n"
       else "  " ++ name ++ ":" ++ (data.get ⟨index, h⟩).render ++ "\n")
        ++ strBody data rest
    else strBody data rest

/-- feature_impl::to_string (lines 269-292). -/
def Feature.to_string (f : Feature) (ctx : Context) : String :=
  "Feature ( id=" ++ toString f.id ++ "\n" ++ strBody f.data ctx.mapping
    ++ ")" ++ "\n"

/-- One step the observed record, or a sibling sharing its schema, can
take: strict put, lenient put_new, or a sibling registering a slot. -/
inductive Op where
  | opPut : String → Value → Op
  | opPutNew : String → Value → Op
  | opSharerPush : String → Op

/-- Apply one operation to the shared schema and the observed record; a
sharer push mutates only the schema, a failed put leaves the state
unchanged. -/
def applyOp (s : Context × Feature) : Op → Context × Feature
  | .opPut key val => (s.2.put s.1 key val).1
  | .opPutNew key val => s.2.put_new s.1 key val
  | .opSharerPush key => ((s.1.push key).2, s.2)

/-- Apply a sequence of operations left to right. -/
def applyOps (s : Context × Feature) (ops : List Op) : Context × Feature :=
  ops.foldl applyOp s

/-- Lexicographic comparison is irreflexive. -/
theorem charListLt_irrefl : ∀ l : List Char, charListLt l l = false
  | [] => rfl
  | a :: as => by simp [charListLt, lt_self_iff_false, charListLt_irrefl as]

/-- Lexicographic comparison is asymmetric. -/
theorem charListLt_asymm : ∀ l₁ l₂ : List Char,
    charListLt l₁ l₂ = true → charListLt l₂ l₁ = false
  | [], [], h => by simp [charListLt] at h
  | [], _ :: _, _ => rfl
  | _ :: _, [], h => by simp [charListLt] at h
  | a :: as, b :: bs, h => by
    by_cases hab : a < b
    · have hba : ¬ b < a := asymm hab
      simp [charListLt, hab, hba]
    · by_cases hba : b < a
      · simp [charListLt, hab, hba] at h
      · simp [charListLt, hab, hba] at h ⊢
        exact charListLt_asymm as bs h

/-- String comparison is irreflexive. -/
theorem strLt_irrefl (s : String) : strLt s s = false :=
  charListLt_irrefl s.data

/-- String comparison is asymmetric. -/
theorem strLt_asymm {a b : String} (h : strLt a b = true) : strLt b a = false :=
  charListLt_asymm _ _ h

/-- A successful find witnesses membership of the key-index pair. -/
theorem mapFind_mem {k : String} {j : Nat} :
    ∀ {l : List (String × Nat)}, mapFind k l = some j → (k, j) ∈ l
  | [], h => by simp [mapFind] at h
  | (k₂, v₂) :: rest, h => by
    by_cases hk : k = k₂
    · subst hk
      simp [mapFind] at h
      simp [h]
    · simp only [mapFind, if_neg hk] at h
      exact List.mem_cons_of_mem _ (mapFind_mem h)

/-- Inserting an absent key makes it findable at the inserted index. -/
theorem mapFind_mapInsert_self {k : String} {v : Nat} :
    ∀ {l : List (String × Nat)},
      mapFind k l = none → mapFind k (mapInsert k v l) = some v
  | [], _ => by simp [mapInsert, mapFind]
  | (k₂, v₂) :: rest, h => by
    have hk : ¬ k = k₂ := by
      intro he
      simp [mapFind, he] at h
    have hrest : mapFind k rest = none := by simpa [mapFind, hk] using h
    by_cases hlt : strLt k k₂
    · simp [mapInsert, hlt, mapFind]
    · simp [mapInsert, hlt, hk, mapFind, mapFind_mapInsert_self hrest]

/-- Insert either leaves the list unchanged or adds exactly the new
pair. -/
theorem mapInsert_cases (k : String) (v : Nat) :
    ∀ l : List (String × Nat),
      mapInsert k v l = l ∨
        ((mapInsert k v l).length = l.length + 1 ∧
          ∀ p ∈ mapInsert k v l, p ∈ l ∨ p = (k, v))
  | [] => Or.inr (by simp [mapInsert])
  | (k₂, v₂) :: rest => by
    by_cases hlt : strLt k k₂
    · refine Or.inr ⟨by simp [mapInsert, hlt], ?_⟩
      intro p hp
      simp only [mapInsert, if_pos hlt, List.mem_cons] at hp
      rcases hp with h1 | h2 | h3
      · exact Or.inr h1
      · exact Or.inl (by simp [h2])
      · exact Or.inl (List.mem_cons_of_mem _ h3)
    · by_cases hk : k = k₂
      · exact Or.inl (by simp [mapInsert, hk, strLt_irrefl])
      · rcases mapInsert_cases k v rest with he | ⟨hlen, hmem⟩
        · exact Or.inl (by simp [mapInsert, hlt, hk, he])
        · refine Or.inr ⟨by simp [mapInsert, hlt, hk, hlen], ?_⟩
          intro p hp
          simp only [mapInsert, if_neg hlt, if_neg hk, List.mem_cons] at hp
          rcases hp with h1 | h2
          · exact Or.inl (by simp [h1])
          · rcases hmem p h2 with h3 | h4
            · exact Or.inl (List.mem_cons_of_mem _ h3)
            · exact Or.inr h4

/-- Insert never shrinks the mapping. -/
theorem length_le_mapInsert (k : String) (v : Nat) (l : List (String × Nat)) :
    l.length ≤ (mapInsert k v l).length := by
  rcases mapInsert_cases k v l with h | ⟨h, _⟩
  · simp [h]
  · omega

/-- Inserting an absent key grows the mapping by exactly one. -/
theorem length_mapInsert_of_none {k : String} {v : Nat} {l : List (String × Nat)}
    (h : mapFind k l = none) : (mapInsert k v l).length = l.length + 1 := by
  rcases mapInsert_cases k v l with he | ⟨hlen, _⟩
  · exfalso
    have hself := mapFind_mapInsert_self (v := v) h
    rw [he, h] at hself
    simp at hself
  · exact hlen

/-- On a sorted mapping, inserting a present key is a no-op. -/
theorem mapInsert_of_found {k : String} {j v : Nat} :
    ∀ {l : List (String × Nat)},
      l.Pairwise (fun a b => strLt a.1 b.1 = true) → mapFind k l = some j →
        mapInsert k v l = l
  | [], _, h => by simp [mapFind] at h
  | (k₂, v₂) :: rest, hp, h => by
    rcases List.pairwise_cons.mp hp with ⟨hhead, htail⟩
    by_cases hk : k = k₂
    · subst hk
      simp [mapInsert, strLt_irrefl]
    · have hrest : mapFind k rest = some j := by simpa [mapFind, hk] using h
      have hmem : (k, j) ∈ rest := mapFind_mem hrest
      have hgt : strLt k₂ k = true := hhead _ hmem
      have hlt : strLt k k₂ = false := strLt_asymm hgt
      simp [mapInsert, hlt, hk, mapInsert_of_found htail hrest]

/-- Safe indexed read is getD with the default value. -/
theorem getIdx_eq_getD (f : Feature) (i : Nat) :
    f.getIdx i = f.data.getD i default_value := by
  by_cases h : i < f.data.length
  · simp [Feature.getIdx, h, List.getD_eq_getElem _ _ h]
  · rw [List.getD_eq_default _ _ (Nat.le_of_not_lt h)]
    simp [Feature.getIdx, h]

/-- Pushing preserves density of the schema. -/
theorem dense_push (c : Context) (k : String) (hd : c.Dense) :
    (c.push k).2.Dense := by
  rcases mapInsert_cases k c.mapping.length c.mapping with he | ⟨hlen, hmem⟩
  · intro p hp
    simp only [Context.push, he] at hp ⊢
    exact hd p hp
  · intro p hp
    simp only [Context.push] at hp ⊢
    rw [hlen]
    rcases hmem p hp with h1 | h2
    · exact Nat.lt_succ_of_lt (hd p h1)
    · rw [h2]
      exact Nat.lt_succ_self _

/-- C2: registerSlot (push) with a name already present in the schema
leaves the size and all existing name-to-index mappings unchanged (no
overwrite, no duplicate slot) and returns the speculative candidate
index, the current size, which need not equal the stored index of the
name. -/
theorem c2_push_existing (ctx : Context) (name : String) (j : Nat)
    (hwf : ctx.WF) (hfound : mapFind name ctx.mapping = some j) :
    ctx.push name = (ctx.size, ctx) := by
  have hnoop := mapInsert_of_found (v := ctx.mapping.length) hwf hfound
  simp [Context.push, Context.size, hnoop]

/-- C2 witness: pushing the present name a returns the speculative
index, the size two, while the stored index of a is zero. -/
theorem c2_push_existing_witness :
    (⟨[("a", 0), ("b", 1)]⟩ : Context).push "a" =
        ((⟨[("a", 0), ("b", 1)]⟩ : Context).size, ⟨[("a", 0), ("b", 1)]⟩) ∧
      mapFind "a" [("a", 0), ("b", 1)] = some 0 ∧
      (⟨[("a", 0), ("b", 1)]⟩ : Context).size ≠ 0 :=
  ⟨c2_push_existing ⟨[("a", 0), ("b", 1)]⟩ "a" 0 (by decide) (by decide),
    by decide, by decide⟩

/-- C3: strict put succeeds, overwriting exactly the resolved slot of
the value array, precisely when the key is in the schema with a slot
index strictly below this record array length; otherwise it surfaces
the out_of_range error with the state unchanged. -/
theorem c3_put_strict (ctx : Context) (f : Feature) (key : String) (val : Value) :
    (∀ idx, mapFind key ctx.mapping = some idx → idx < f.data.length →
        f.put ctx key val = ((ctx, { f with data := f.data.set idx val }), none)) ∧
      (mapFind key ctx.mapping = none →
        f.put ctx key val = ((ctx, f), some ("Key does not exist: " ++ key))) ∧
      (∀ idx, mapFind key ctx.mapping = some idx → f.data.length ≤ idx →
        f.put ctx key val = ((ctx, f), some ("Key does not exist: " ++ key))) := by
  refine ⟨?_, ?_, ?_⟩
  · intro idx hfind hlt
    simp [Feature.put, hfind, hlt]
  · intro hfind
    simp [Feature.put, hfind]
  · intro idx hfind hge
    simp [Feature.put, hfind, Nat.not_lt.mpr hge]

/-- C3 witness: a present in-bounds key is overwritten; an absent key
raises with the record unchanged. -/
theorem c3_put_strict_witness :
    (Feature.mk 1 [Value.vnull] [] none).put ⟨[("a", 0)]⟩ "a" (Value.vint 4) =
        ((⟨[("a", 0)]⟩, Feature.mk 1 [Value.vint 4] [] none), none) ∧
      (Feature.mk 1 [Value.vnull] [] none).put ⟨[("a", 0)]⟩ "b" (Value.vint 4) =
        ((⟨[("a", 0)]⟩, Feature.mk 1 [Value.vnull] [] none),
          some ("Key does not exist: " ++ "b")) :=
  ⟨(c3_put_strict ⟨[("a", 0)]⟩ (Feature.mk 1 [Value.vnull] [] none) "a"
      (Value.vint 4)).1 0 (by decide) (by decide),
    (c3_put_strict ⟨[("a", 0)]⟩ (Feature.mk 1 [Value.vnull] [] none) "b"
      (Value.vint 4)).2.1 (by decide)⟩

/-- C4: safe reads never fail: an absent key, a resolved slot at or
beyond the array length, or a direct index at or beyond the array
length yield the default value; otherwise the stored slot value is
returned. -/
theorem c4_get_total (ctx : Context) (f : Feature) (key : String) (index : Nat) :
    (mapFind key ctx.mapping = none → f.get ctx key = default_value) ∧
      (∀ idx, mapFind key ctx.mapping = some idx → f.data.length ≤ idx →
        f.get ctx key = default_value) ∧
      (∀ idx (h : idx < f.data.length), mapFind key ctx.mapping = some idx →
        f.get ctx key = f.data.get ⟨idx, h⟩) ∧
      (f.data.length ≤ index → f.getIdx index = default_value) ∧
      (∀ h : index < f.data.length, f.getIdx index = f.data.get ⟨index, h⟩) := by
  refine ⟨?_, ?_, ?_, ?_, ?_⟩
  · intro hfind
    simp [Feature.get, hfind]
  · intro idx hfind hge
    simp [Feature.get, hfind, Feature.getIdx, Nat.not_lt.mpr hge]
  · intro idx h hfind
    simp [Feature.get, hfind, Feature.getIdx, h]
  · intro hge
    simp [Feature.getIdx, Nat.not_lt.mpr hge]
  · intro h
    simp [Feature.getIdx, h]

/-- C4 witness: reads of an unknown key, an out-of-bounds key, a valid
key and an out-of-bounds index on a concrete record. -/
theorem c4_get_total_witness :
    (Feature.mk 1 [Value.vint 8] [] none).get ⟨[("a", 0)]⟩ "zz" = default_value ∧
      (Feature.mk 1 [Value.vint 8] [] none).get ⟨[("a", 0), ("b", 7)]⟩ "b" =
        default_value ∧
      (Feature.mk 1 [Value.vint 8] [] none).get ⟨[("a", 0)]⟩ "a" = Value.vint 8 ∧
      (Feature.mk 1 [Value.vint 8] [] none).getIdx 5 = default_value :=
  ⟨(c4_get_total ⟨[("a", 0)]⟩ (Feature.mk 1 [Value.vint 8] [] none) "zz" 0).1
      (by decide),
    (c4_get_total ⟨[("a", 0), ("b", 7)]⟩ (Feature.mk 1 [Value.vint 8] [] none)
      "b" 0).2.1 7 (by decide) (by decide),
    (c4_get_total ⟨[("a", 0)]⟩ (Feature.mk 1 [Value.vint 8] [] none) "a" 0).2.2.1
      0 (by decide) (by decide),
    (c4_get_total ⟨[("a", 0)]⟩ (Feature.mk 1 [Value.vint 8] [] none) "a" 5).2.2.2.1
      (by decide)⟩

/-- C5: a record built against a schema of size K snapshots that size:
its array length is K, every read of it yields the default value, and
it has no geometries and no raster. -/
theorem c5_make_snapshot (ctx : Context) (id : Int) :
    (Feature.make ctx id).size = ctx.size ∧
      (∀ i, (Feature.make ctx id).getIdx i = default_value) ∧
      (Feature.make ctx id).geoms = [] ∧ (Feature.make ctx id).raster = none := by
  refine ⟨by simp [Feature.make, Feature.size], ?_, rfl, rfl⟩
  intro i
  rw [getIdx_eq_getD]
  by_cases h : i < ctx.size
  · rw [List.getD_eq_getElem]
    · simp [Feature.make]
    · simpa [Feature.make] using h
  · rw [List.getD_eq_default]
    simpa [Feature.make] using Nat.le_of_not_lt h

/-- C10: a failing strict put is atomic: whenever put reports the
error, the resulting schema and record state equal the originals. -/
theorem c10_put_atomic (ctx : Context) (f : Feature) (key : String) (val : Value)
    (e : String) (herr : (f.put ctx key val).2 = some e) :
    (f.put ctx key val).1 = (ctx, f) := by
  rcases hfind : mapFind key ctx.mapping with _ | idx
  · simp [Feature.put, hfind]
  · by_cases hlt : idx < f.data.length
    · simp [Feature.put, hfind, hlt] at herr
    · simp [Feature.put, hfind, hlt]

/-- C10 witness: a put that raises on an empty schema returns the state
unchanged. -/
theorem c10_put_atomic_witness :
    ((Feature.mk 1 [] [] none).put ⟨[]⟩ "a" (Value.vint 2)).1 =
      (⟨[]⟩, Feature.mk 1 [] [] none) :=
  c10_put_atomic ⟨[]⟩ (Feature.mk 1 [] [] none) "a" (Value.vint 2)
    ("Key does not exist: " ++ "a") (by decide)

/-- C1 counterexample: record 2 (a sibling built on the empty schema)
registers key a via put_new, growing the shared schema to size one;
record 1, also built on the empty schema, has array length zero and so
has fallen behind. Record 1 then calls put_new with that same key: the
schema does NOT grow — its size stays one, refuting the claim that the
call grows the schema — because inserting a present key is a no-op. -/
theorem c1_put_new_lagging_counterexample :
    (Feature.make ⟨[]⟩ 1).data.length <
        (((Feature.make ⟨[]⟩ 2).put_new ⟨[]⟩ "a" (Value.vint 7)).1).size ∧
      ¬ ((((Feature.make ⟨[]⟩ 2).put_new ⟨[]⟩ "a" (Value.vint 7)).1).size <
          ((Feature.make ⟨[]⟩ 1).put_new
              ((Feature.make ⟨[]⟩ 2).put_new ⟨[]⟩ "a" (Value.vint 7)).1 "a"
              (Value.vint 5)).1.size) := by
  decide

/-- C1 (amended): on a record that has fallen behind the schema for a
key a sibling registered (the key resolves to a slot at or beyond this
record array length), put_new with that key leaves the schema (size and
mappings) and the record entirely unchanged — the schema does not grow,
the key being already present — and a subsequent read of that key on
this record returns the default value. -/
theorem c1_put_new_lagging (ctx : Context) (f : Feature) (key : String)
    (val : Value) (idx : Nat) (hwf : ctx.WF) (hdense : ctx.Dense)
    (hfind : mapFind key ctx.mapping = some idx) (hlag : f.data.length ≤ idx) :
    f.put_new ctx key val = (ctx, f) ∧ f.get ctx key = default_value := by
  have hnoop : mapInsert key ctx.mapping.length ctx.mapping = ctx.mapping :=
    mapInsert_of_found hwf hfind
  have hltsize : idx < ctx.mapping.length := hdense _ (mapFind_mem hfind)
  have hne : ¬ (ctx.mapping.length = f.data.length) := by omega
  have hnlt : ¬ (idx < f.data.length) := Nat.not_lt.mpr hlag
  constructor
  · simp [Feature.put_new, hfind, hnlt, Context.push, hne, hnoop]
  · simp [Feature.get, hfind, Feature.getIdx, hnlt]

/-- C1 witness: record 1 built on the empty schema lags behind the
schema holding key a at slot zero; put_new of a leaves everything
unchanged and the read returns the default value. -/
theorem c1_put_new_lagging_witness :
    (Feature.make ⟨[]⟩ 1).put_new ⟨[("a", 0)]⟩ "a" (Value.vint 5) =
        (⟨[("a", 0)]⟩, Feature.make ⟨[]⟩ 1) ∧
      (Feature.make ⟨[]⟩ 1).get ⟨[("a", 0)]⟩ "a" = default_value :=
  c1_put_new_lagging ⟨[("a", 0)]⟩ (Feature.make ⟨[]⟩ 1) "a" (Value.vint 5) 0
    (by decide) (by decide) (by decide) (by decide)

/-- C6: put_new with a genuinely new key on a record whose array length
equals the schema size grows the schema by one slot, appends the value
so the record array grows by exactly one, and a subsequent read of that
key on this record returns the written value. -/
theorem c6_put_new_fresh (ctx : Context) (f : Feature) (key : String) (val : Value)
    (hfind : mapFind key ctx.mapping = none) (hlen : f.data.length = ctx.size) :
    (f.put_new ctx key val).1.size = ctx.size + 1 ∧
      (f.put_new ctx key val).2.data = f.data ++ [val] ∧
      (f.put_new ctx key val).2.size = f.size + 1 ∧
      (f.put_new ctx key val).2.get (f.put_new ctx key val).1 key = val := by
  have hres : f.put_new ctx key val =
      (⟨mapInsert key ctx.mapping.length ctx.mapping⟩,
        { f with data := f.data ++ [val] }) := by
    simp [Feature.put_new, hfind, Context.push, Context.size] at hlen ⊢
    simp [hlen]
  rw [hres]
  refine ⟨?_, rfl, by simp [Feature.size], ?_⟩
  · simp [Context.size, length_mapInsert_of_none hfind]
  · simp only [Feature.get, mapFind_mapInsert_self hfind]
    rw [getIdx_eq_getD]
    simp only [Context.size] at hlen
    rw [List.getD_append_right _ _ _ _ (le_of_eq hlen)]
    simp [hlen]

/-- C6 witness: the first put_new on an empty schema grows it to size
one, stores the value, and the value reads back. -/
theorem c6_put_new_fresh_witness :
    ((Feature.make ⟨[]⟩ 1).put_new ⟨[]⟩ "x" (Value.vint 9)).1.size = 1 ∧
      ((Feature.make ⟨[]⟩ 1).put_new ⟨[]⟩ "x" (Value.vint 9)).2.get
        ((Feature.make ⟨[]⟩ 1).put_new ⟨[]⟩ "x" (Value.vint 9)).1 "x" =
        Value.vint 9 :=
  ⟨(c6_put_new_fresh ⟨[]⟩ (Feature.make ⟨[]⟩ 1) "x" (Value.vint 9)
      (by decide) (by decide)).1,
    (c6_put_new_fresh ⟨[]⟩ (Feature.make ⟨[]⟩ 1) "x" (Value.vint 9)
      (by decide) (by decide)).2.2.2⟩

/-- C7: the envelope of a record is the empty sentinel with zero
geometries; with exactly one geometry it is exactly that geometry box,
initialized from it rather than unioned with an empty box; with two or
more geometries it is seeded from the first box and each later box is
unioned in by expand_to_include in insertion order. -/
theorem c7_envelope (f : Feature) :
    (f.geoms = [] → f.envelope = none) ∧
      (∀ b, f.geoms = [b] → f.envelope = some b) ∧
      (∀ b c rest, f.geoms = b :: c :: rest →
        f.envelope =
          some (rest.foldl Box.expand_to_include (b.expand_to_include c))) := by
  refine ⟨?_, ?_, ?_⟩
  · intro h
    simp [Feature.envelope, h]
  · intro b h
    simp [Feature.envelope, h]
  · intro b c rest h
    simp [Feature.envelope, h]

/-- C7 witness: the section-8 example: no geometry gives the empty
sentinel; box (0,0,10,10) alone gives exactly itself; adding
(5,5,20,20) gives the union (0,0,20,20). -/
theorem c7_envelope_witness :
    (Feature.make ⟨[]⟩ 0).envelope = none ∧
      ((Feature.make ⟨[]⟩ 0).add_geometry ⟨0, 0, 10, 10⟩).envelope =
        some ⟨0, 0, 10, 10⟩ ∧
      (((Feature.make ⟨[]⟩ 0).add_geometry ⟨0, 0, 10, 10⟩).add_geometry
          ⟨5, 5, 20, 20⟩).envelope = some ⟨0, 0, 20, 20⟩ :=
  ⟨(c7_envelope _).1 (by decide),
    ((c7_envelope _).2.1 ⟨0, 0, 10, 10⟩ (by decide)).trans (by decide),
    ((c7_envelope _).2.2 ⟨0, 0, 10, 10⟩ ⟨5, 5, 20, 20⟩ [] (by decide)).trans
      (by decide)⟩

/-- The to_string body loop equals the concatenation of the per-entry
attribute lines, dropping the out-of-bounds entries. -/
theorem strBody_eq_filterMap (data : List Value) :
    ∀ l : List (String × Nat),
      strBody data l = (l.filterMap (attrLine data)).foldr (· ++ ·) ""
  | [] => rfl
  | (name, index) :: rest => by
    by_cases h : index < data.length
    · simp [strBody, attrLine, h, List.filterMap_cons,
        strBody_eq_filterMap data rest]
    · simp [strBody, attrLine, h, List.filterMap_cons,
        strBody_eq_filterMap data rest]

/-- C8: on a well-formed schema, to_string is exactly the header line
with the id, then one attribute line per schema entry whose slot index
is strictly within the record array length (entries beyond bounds are
silently omitted; a value equal to the null sentinel renders the
literal null), walked in the mapping order — whose key sequence is
strictly name-sorted — and a closing line holding only the
parenthesis. -/
theorem c8_to_string (ctx : Context) (f : Feature) (hwf : ctx.WF) :
    f.to_string ctx =
        "Feature ( id=" ++ toString f.id ++ "\n" ++
          (ctx.mapping.filterMap (attrLine f.data)).foldr (· ++ ·) "" ++
          ")" ++ "\n" ∧
      (ctx.mapping.map Prod.fst).Pairwise (fun a b => strLt a b = true) := by
  constructor
  · unfold Feature.to_string
    rw [strBody_eq_filterMap]
  · exact List.pairwise_map.mpr hwf

/-- C8 witness: the section-8 end-to-end example, id 7 with entries
name and pop, once with a non-null and once with a null pop slot, and a
record lagging behind the schema omitting the out-of-bounds line. -/
theorem c8_to_string_witness :
    (Feature.mk 7 [Value.vstr "NYC", Value.vint 100] [] none).to_string
        ⟨[("name", 0), ("pop", 1)]⟩ =
        "Feature ( id=7\n  name:NYC\n  pop:100\n)\n" ∧
      (Feature.mk 7 [Value.vstr "NYC", Value.vnull] [] none).to_string
        ⟨[("name", 0), ("pop", 1)]⟩ =
        "Feature ( id=7\n  name:NYC\n  pop:null\n)\n" ∧
      (Feature.mk 7 [Value.vstr "NYC"] [] none).to_string
        ⟨[("name", 0), ("pop", 1)]⟩ =
        "Feature ( id=7\n  name:NYC\n)\n" :=
  ⟨((c8_to_string ⟨[("name", 0), ("pop", 1)]⟩
      (Feature.mk 7 [Value.vstr "NYC", Value.vint 100] [] none)
      (by decide)).1).trans (by decide),
    ((c8_to_string ⟨[("name", 0), ("pop", 1)]⟩
      (Feature.mk 7 [Value.vstr "NYC", Value.vnull] [] none)
      (by decide)).1).trans (by decide),
    ((c8_to_string ⟨[("name", 0), ("pop", 1)]⟩
      (Feature.mk 7 [Value.vstr "NYC"] [] none)
      (by decide)).1).trans (by decide)⟩

/-- C9 counterexample: registerExisting (add) may store a sparse slot
index — here a maps to slot one while the schema size is one — and the
record built against that schema then has array length one; put_new of
a finds the out-of-bounds slot, pushes speculatively, and appends since
the speculative index equals the array length: the record array length
becomes two while the schema size stays one, violating the claimed
invariant. -/
theorem c9_length_invariant_counterexample :
    ¬ (((Feature.make (Context.add ⟨[]⟩ "a" 1) 0).put_new
          (Context.add ⟨[]⟩ "a" 1) "a" (Value.vint 3)).2.size ≤
        ((Feature.make (Context.add ⟨[]⟩ "a" 1) 0).put_new
          (Context.add ⟨[]⟩ "a" 1) "a" (Value.vint 3)).1.size) := by
  decide

/-- One operation preserves schema density together with the bound of
the record array length by the schema size. -/
theorem applyOp_inv (s : Context × Feature) (op : Op)
    (hd : s.1.Dense) (hlen : s.2.size ≤ s.1.size) :
    (applyOp s op).1.Dense ∧ (applyOp s op).2.size ≤ (applyOp s op).1.size := by
  rcases op with ⟨key, val⟩ | ⟨key, val⟩ | key
  · rcases hfind : mapFind key s.1.mapping with _ | idx
    · simpa [applyOp, Feature.put, hfind] using ⟨hd, hlen⟩
    · by_cases hlt : idx < s.2.data.length
      · constructor
        · simpa [applyOp, Feature.put, hfind, hlt] using hd
        · simpa [applyOp, Feature.put, hfind, hlt, Feature.size, Context.size,
            List.length_set] using hlen
      · simpa [applyOp, Feature.put, hfind, hlt] using ⟨hd, hlen⟩
  · rcases hfind : mapFind key s.1.mapping with _ | idx
    · have hgrow : (mapInsert key s.1.mapping.length s.1.mapping).length =
          s.1.mapping.length + 1 := length_mapInsert_of_none hfind
      by_cases heq : s.1.mapping.length = s.2.data.length
      · have hres : applyOp s (Op.opPutNew key val) =
            (⟨mapInsert key s.1.mapping.length s.1.mapping⟩,
              { s.2 with data := s.2.data ++ [val] }) := by
          simp [applyOp, Feature.put_new, hfind, Context.push, heq]
        rw [hres]
        constructor
        · simpa [Context.push] using dense_push s.1 key hd
        · simp only [Feature.size, Context.size, List.length_append,
            List.length_cons, List.length_nil]
          omega
      · have hres : applyOp s (Op.opPutNew key val) =
            (⟨mapInsert key s.1.mapping.length s.1.mapping⟩, s.2) := by
          simp [applyOp, Feature.put_new, hfind, Context.push, heq]
        rw [hres]
        constructor
        · simpa [Context.push] using dense_push s.1 key hd
        · simp only [Feature.size, Context.size] at hlen ⊢
          omega
    · by_cases hlt : idx < s.2.data.length
      · constructor
        · simpa [applyOp, Feature.put_new, hfind, hlt] using hd
        · simpa [applyOp, Feature.put_new, hfind, hlt, Feature.size,
            Context.size, List.length_set] using hlen
      · have hidx : idx < s.1.mapping.length := hd _ (mapFind_mem hfind)
        have hne : ¬ (s.1.mapping.length = s.2.data.length) := by
          simp only [Feature.size, Context.size] at hlen
          omega
        have hres : applyOp s (Op.opPutNew key val) =
            (⟨mapInsert key s.1.mapping.length s.1.mapping⟩, s.2) := by
          simp [applyOp, Feature.put_new, hfind, hlt, Context.push, hne]
        rw [hres]
        constructor
        · simpa [Context.push] using dense_push s.1 key hd
        · have hmono := length_le_mapInsert key s.1.mapping.length s.1.mapping
          simp only [Feature.size, Context.size] at hlen ⊢
          omega
  · constructor
    · simpa [applyOp] using dense_push s.1 key hd
    · have hmono := length_le_mapInsert key s.1.mapping.length s.1.mapping
      simp only [applyOp, Context.push, Feature.size, Context.size] at hlen ⊢
      omega

/-- A sequence of operations preserves density and the length bound. -/
theorem applyOps_inv (ops : List Op) :
    ∀ s : Context × Feature, s.1.Dense → s.2.size ≤ s.1.size →
      (applyOps s ops).1.Dense ∧
        (applyOps s ops).2.size ≤ (applyOps s ops).1.size := by
  induction ops with
  | nil => exact fun s hd hl => ⟨hd, hl⟩
  | cons op rest ih =>
    intro s hd hl
    have hstep := applyOp_inv s op hd hl
    simpa [applyOps, List.foldl_cons] using
      ih (applyOp s op) hstep.1 hstep.2

/-- C9 (amended): starting from a dense schema — every stored slot
index strictly below the schema size, as growth through registerSlot
alone maintains — a record built by the constructor and driven by any
sequence of put, put_new and sibling registerSlot operations keeps its
array length at most the current schema size. registerExisting is
excluded: it can store an index at or beyond the size, breaking
density, after which put_new can grow the record past the schema (see
the counterexample). -/
theorem c9_length_invariant (ops : List Op) (ctx : Context) (id : Int)
    (hd : ctx.Dense) :
    (applyOps (ctx, Feature.make ctx id) ops).2.size ≤
      (applyOps (ctx, Feature.make ctx id) ops).1.size := by
  have h0 : (Feature.make ctx id).size ≤ ctx.size := by
    simp [Feature.make, Feature.size, Context.size]
  exact (applyOps_inv ops (ctx, Feature.make ctx id) hd h0).2

/-- C9 witness: a concrete run mixing a sibling registration, a lenient
write of a fresh key and a strict write keeps the bound. -/
theorem c9_length_invariant_witness :
    (applyOps (⟨[]⟩, Feature.make ⟨[]⟩ 5)
          [Op.opSharerPush "b", Op.opPutNew "a" (Value.vint 1),
            Op.opPut "b" (Value.vint 2)]).2.size ≤
      (applyOps (⟨[]⟩, Feature.make ⟨[]⟩ 5)
          [Op.opSharerPush "b", Op.opPutNew "a" (Value.vint 1),
            Op.opPut "b" (Value.vint 2)]).1.size :=
  c9_length_invariant
    [Op.opSharerPush "b", Op.opPutNew "a" (Value.vint 1),
      Op.opPut "b" (Value.vint 2)] ⟨[]⟩ 5 (by decide)

end Mapnik
